import Mathlib

/-!
Verification of the doify DOI-resolution tool (src/doify.py).

The development shallowly embeds the three functions of the program:

* `similar`  — `SequenceMatcher(None, a, b).ratio()` from Python's difflib,
  modelled by the dynamic-programming longest-matching-block search
  (`dpPass`), the two extension loops of `find_longest_match`
  (`extLeft`, `extRight`) and the recursive block collection of
  `get_matching_blocks` (`matchesTotal`).  Python strings are `List Char`,
  the float ratio is an exact rational.  The autojunk popularity heuristic
  of difflib is a performance device that does not change the ratio on the
  inputs considered here; it is omitted, as are the two junk-extension
  loops, which never fire when `isjunk is None` because the junk set is
  empty.
* `search_doi` — the CrossRef lookup.  The single HTTP response is an
  explicit argument (`HttpOutcome`), mirroring the single
  `requests.get` the code performs; `requests.RequestException` is the
  `failure` constructor and the parsed JSON shape of §6 is `RespData`.
* `process_bib_file` — the batch driver, embedded as `processEntry` /
  `processEntries` over parsed bibliography entries; uncaught Python
  exceptions become `Except.error`.
-/

namespace Doify

/-! ## Matcher: difflib SequenceMatcher ratio -/

/-- One Python-string character access: `a[i]`. -/
def charAt (a : List Char) (i : Nat) : Option Char := a.get? i

/-- Equality test `a[i] == b[j]`; indices outside the string never match
(the program only compares in-range indices). -/
def idxEq (a b : List Char) (i j : Nat) : Bool :=
  match a.get? i, b.get? j with
  | some x, some y => decide (x = y)
  | _, _ => false

/-- The bucket `b2j[c]`: the ascending list of positions of `c` in `b`
(difflib's `__chain_b` with `isjunk is None`). -/
def b2j (b : List Char) (c : Char) : List Nat :=
  (List.range b.length).filter fun j => b.get? j = some c

/-- The running best block `(besti, bestj, bestsize)` of
`find_longest_match`. -/
structure BlockMatch where
  besti : Nat
  bestj : Nat
  size : Nat
deriving DecidableEq, Repr

/-- Inner loop of `find_longest_match`: one pass over `b2j[a[i]]`,
updating `newj2len` and the best block.  `j2len` is the dictionary from
the previous outer iteration (`j2len.get(j-1, 0)` is `0` at `j = 0`,
where Python would look up key `-1`). -/
def innerLoop (i blo bhi : Nat) (j2len : Nat → Nat) :
    List Nat → (Nat → Nat) → BlockMatch → ((Nat → Nat) × BlockMatch)
  | [], newj2len, best => (newj2len, best)
  | j :: js, newj2len, best =>
    if j < blo then innerLoop i blo bhi j2len js newj2len best
    else if bhi ≤ j then (newj2len, best)
    else
      let k := (if j = 0 then 0 else j2len (j - 1)) + 1
      let newj2len' : Nat → Nat := fun j' => if j' = j then k else newj2len j'
      let best' := if best.size < k then ⟨i + 1 - k, j + 1 - k, k⟩ else best
      innerLoop i blo bhi j2len js newj2len' best'

/-- Outer loop of `find_longest_match` over `i in range(alo, ahi)`. -/
def dpLoop (a b : List Char) (blo bhi : Nat) :
    List Nat → (Nat → Nat) → BlockMatch → ((Nat → Nat) × BlockMatch)
  | [], j2len, best => (j2len, best)
  | i :: is, j2len, best =>
    let js := match charAt a i with
      | some c => b2j b c
      | none => []
    let step := innerLoop i blo bhi j2len js (fun _ => 0) best
    dpLoop a b blo bhi is step.1 step.2

/-- The dynamic-programming part of `find_longest_match`. -/
def dpPass (a b : List Char) (alo ahi blo bhi : Nat) : BlockMatch :=
  (dpLoop a b blo bhi (List.range' alo (ahi - alo)) (fun _ => 0) ⟨alo, blo, 0⟩).2

/-- First extension loop, structured on a fuel that counts the remaining
possible steps: grow the best block leftwards while the preceding
characters agree.  `besti` strictly decreases and the guard needs
`alo < besti`, so a fuel of `besti + 1` is never exhausted. -/
def extLeftAux (a b : List Char) (alo blo : Nat) : Nat → BlockMatch → BlockMatch
  | 0, m => m
  | fuel + 1, m =>
    if alo < m.besti ∧ blo < m.bestj ∧ idxEq a b (m.besti - 1) (m.bestj - 1) then
      extLeftAux a b alo blo fuel ⟨m.besti - 1, m.bestj - 1, m.size + 1⟩
    else m

/-- The first extension loop of `find_longest_match`. -/
def extLeft (a b : List Char) (alo blo : Nat) (m : BlockMatch) : BlockMatch :=
  extLeftAux a b alo blo (m.besti + 1) m

/-- Second extension loop, likewise fuelled: grow the best block
rightwards while the following characters agree.  `size` strictly
increases and the guard needs `besti + size < ahi`, so a fuel of
`ahi - (besti + size) + 1` is never exhausted. -/
def extRightAux (a b : List Char) (ahi bhi : Nat) : Nat → BlockMatch → BlockMatch
  | 0, m => m
  | fuel + 1, m =>
    if m.besti + m.size < ahi ∧ m.bestj + m.size < bhi ∧
        idxEq a b (m.besti + m.size) (m.bestj + m.size) then
      extRightAux a b ahi bhi fuel ⟨m.besti, m.bestj, m.size + 1⟩
    else m

/-- The second extension loop of `find_longest_match`. -/
def extRight (a b : List Char) (ahi bhi : Nat) (m : BlockMatch) : BlockMatch :=
  extRightAux a b ahi bhi (ahi - (m.besti + m.size) + 1) m

/-- Model of `find_longest_match(alo, ahi, blo, bhi)` with `isjunk is None`: the
dynamic-programming search followed by the two extension loops (the two
junk-extension loops never fire, the junk set being empty). -/
def findLongestMatch (a b : List Char) (alo ahi blo bhi : Nat) : BlockMatch :=
  extRight a b ahi bhi (extLeft a b alo blo (dpPass a b alo ahi blo bhi))

/-- Total size of the blocks produced by `get_matching_blocks`:
the recursive split around each longest match.  The later sort and
merge of adjacent blocks do not change this sum.  The fuel bounds the
recursion depth; every split removes at least one position from the
`a`-interval, so `a.length + b.length + 1` always suffices. -/
def matchesTotal (a b : List Char) : Nat → Nat → Nat → Nat → Nat → Nat
  | 0, _, _, _, _ => 0
  | fuel + 1, alo, ahi, blo, bhi =>
    let m := findLongestMatch a b alo ahi blo bhi
    if m.size = 0 then 0
    else
      m.size
        + (if alo < m.besti ∧ blo < m.bestj then
            matchesTotal a b fuel alo m.besti blo m.bestj else 0)
        + (if m.besti + m.size < ahi ∧ m.bestj + m.size < bhi then
            matchesTotal a b fuel (m.besti + m.size) ahi (m.bestj + m.size) bhi else 0)

/-- Model of `SequenceMatcher.ratio()`: `2.0 * matches / (len(a) + len(b))`,
and `1.0` when both strings are empty (`_calculate_ratio`).  The float
is modelled by an exact rational; the comparisons the program makes
(`== 1.0`, `== 0.0`, `> 0.8`) are never decided by float rounding. -/
def ratioOf (a b : List Char) : ℚ :=
  let matchCount := matchesTotal a b (a.length + b.length + 1) 0 a.length 0 b.length
  if a.length + b.length = 0 then 1
  else mkRat (2 * matchCount) (a.length + b.length)

/-- Model of `similar(a, b)` from src/doify.py:
`SequenceMatcher(None, a, b).ratio()`. -/
def similar (a b : String) : ℚ := ratioOf a.data b.data

/-- Python `str.lower()` (the program lowercases ASCII author names). -/
def toLowerStr (s : String) : String := String.mk (s.data.map Char.toLower)

/-! ## Resolver: search_doi -/

/-- One author record of the CrossRef response: the `"family"` key may
be absent. -/
structure AuthorRec where
  family : Option String
deriving DecidableEq, Repr

/-- One result item: `"DOI"` and `"author"` keys may be absent. -/
structure Item where
  DOI : Option String
  author : Option (List AuthorRec)
deriving DecidableEq, Repr

/-- The `"message"` object: the `"items"` key may be absent. -/
structure MessageData where
  items : Option (List Item)
deriving DecidableEq, Repr

/-- The parsed JSON body: the `"message"` key may be absent. -/
structure RespData where
  message : Option MessageData
deriving DecidableEq, Repr

/-- Outcome of the single `requests.get`: a transport/HTTP-level failure
(`requests.RequestException`, including non-2xx via `raise_for_status`)
or a parsed JSON body. -/
inductive HttpOutcome where
  | failure (err : String)
  | success (data : RespData)
deriving DecidableEq, Repr

/-- The comprehension `[author["family"] for author in item.get("author", []) if "family" in author]`. -/
def extractFamilies (recs : List AuthorRec) : List String :=
  recs.filterMap (fun r => r.family)

/-- The matching threshold `0.8` of src/doify.py line 31, as the exact
rational `4/5`. -/
def threshold : ℚ := mkRat 4 5

/-- The match decision of src/doify.py line 31:
`similar(crossref_author.lower(), author.lower()) > 0.8`. -/
def authorAccepted (candidate requested : String) : Bool :=
  Rat.blt threshold (similar (toLowerStr candidate) (toLowerStr requested))

/-- The author loop of `search_doi`: return `item.get("DOI")` at the
first accepted candidate, else fall through to `None`. -/
def checkAuthors (requested : String) (doi : Option String) :
    List String → Option String
  | [] => none
  | ca :: rest =>
    if authorAccepted ca requested then doi else checkAuthors requested doi rest

/-- Model of `search_doi(title, author)` of src/doify.py, with the single HTTP
response passed explicitly (the code performs exactly one
`requests.get`; `title` only feeds the query parameters). -/
def search_doi (title requested : String) (resp : HttpOutcome) : Option String :=
  match resp with
  | .failure _ => none
  | .success data =>
    match data.message with
    | none => none
    | some msg =>
      match msg.items with
      | none => none
      | some [] => none
      | some (item :: _) =>
        checkAuthors requested item.DOI (extractFamilies (item.author.getD []))

/-- The single top-ranked item of a response body, when present. -/
def topItem (data : RespData) : Option Item :=
  match data.message with
  | some msg =>
    match msg.items with
    | some (item :: _) => some item
    | _ => none
  | none => none

/-- The candidate author surnames extracted from the top item. -/
def crossrefAuthors (data : RespData) : List String :=
  match topItem data with
  | some item => extractFamilies (item.author.getD [])
  | none => []

/-- The DOI of the top item, when both are present. -/
def topDOI (data : RespData) : Option String :=
  match topItem data with
  | some item => item.DOI
  | none => none

/-- Candidate author surnames offered by a response. -/
def respAuthors (o : HttpOutcome) : List String :=
  match o with
  | .success data => crossrefAuthors data
  | .failure _ => []

/-! ## Batch driver: process_bib_file -/

/-- One parsed person name: `last_names` is pybtex's ordered list of
surname components, possibly empty (e.g. `author = {, John}`). -/
structure Person where
  last_names : List String
deriving DecidableEq, Repr

/-- One bibliography entry: the field map (association list) and
`entry.persons.get("author", [])`. -/
structure Entry where
  fields : List (String × String)
  authors : List Person
deriving DecidableEq, Repr

/-- The write `entry.fields["doi"] = doi`: the key is absent, so the write adds
one binding. -/
def setField (fields : List (String × String)) (key value : String) :
    List (String × String) :=
  fields ++ [(key, value)]

/-- The lookup `entry.fields.get("title", "")`. -/
def entryTitle (e : Entry) : String := (e.fields.lookup "title").getD ""

/-- The `"doi"` binding of an entry. -/
def entryDoi (e : Entry) : Option String := e.fields.lookup "doi"

/-- One iteration of the `process_bib_file` loop.  `registry` is the
external CrossRef collaborator: the response the single query for a
given title would receive.  The result carries the updated entry, the
`updated_count` contribution, and the list of titles queried;
`Except.error` is an uncaught Python exception (the unguarded
`authors[0].last_names[0]` of line 52). -/
def processEntry (registry : String → HttpOutcome) (entry : Entry) :
    Except String (Entry × Bool × List String) :=
  if (entry.fields.lookup "doi").isSome then .ok (entry, false, [])
  else
    match entry.authors with
    | [] => .ok (entry, false, [])
    | a0 :: _ =>
      if entryTitle entry = "" then .ok (entry, false, [])
      else
        match a0.last_names with
        | [] => .error "IndexError: list index out of range"
        | ln0 :: _ =>
          match search_doi (entryTitle entry) ln0 (registry (entryTitle entry)) with
          | some doi =>
            .ok ({ entry with fields := setField entry.fields "doi" doi }, true,
              [entryTitle entry])
          | none => .ok (entry, false, [entryTitle entry])

/-- The whole `process_bib_file` run over the parsed entries, in order.
On `ok`, the output file is written from the returned entries and the
returned count is reported; an uncaught exception aborts the run before
anything is written. -/
def processEntries (registry : String → HttpOutcome) :
    List Entry → Except String (List Entry × Nat × List String)
  | [] => .ok ([], 0, [])
  | e :: rest =>
    match processEntry registry e with
    | .error msg => .error msg
    | .ok (e', updated, qs) =>
      match processEntries registry rest with
      | .error msg => .error msg
      | .ok (rest', count, qss) =>
        .ok (e' :: rest', (if updated then 1 else 0) + count, qs ++ qss)

/-! ## Specification of the dynamic-programming state -/

/-- Length of the common suffix of `s[0..i]` and `s[0..j]` (both ends
inclusive): the value the `j2len` dictionary holds at key `j` after
outer iteration `i` when `find_longest_match` runs on the pair
`(s, s)`. -/
def csl (s : List Char) : Nat → Nat → Nat
  | 0, j => if idxEq s s 0 j then 1 else 0
  | i + 1, 0 => if idxEq s s (i + 1) 0 then 1 else 0
  | i + 1, j + 1 => if idxEq s s (i + 1) (j + 1) then csl s i j + 1 else 0

/-- The `j2len` dictionary as entering outer iteration `i`: empty
before the first iteration, the row `csl s (i-1)` afterwards. -/
def j2Spec (s : List Char) : Nat → Nat → Nat
  | 0, _ => 0
  | i + 1, j => csl s i j

/-! ## Helper lemmas -/

/-- The threshold constant is the rational `4/5`, i.e. `0.8`. -/
theorem threshold_eq_four_fifths : threshold = 4 / 5 := by
  rw [threshold, Rat.mkRat_eq_divInt, Rat.divInt_eq_div]
  norm_num

/-- The author loop is the guarded return of `item.get("DOI")` under an
existential over the candidate list. -/
theorem checkAuthors_eq_any (requested : String) (doi : Option String) (l : List String) :
    checkAuthors requested doi l =
      if l.any (fun ca => authorAccepted ca requested) then doi else none := by
  induction l with
  | nil => rfl
  | cons ca rest ih =>
    by_cases h : authorAccepted ca requested
    · simp [checkAuthors, h]
    · simp [checkAuthors, h, ih]

/-- With no `"DOI"` key the loop can only return `None`. -/
theorem checkAuthors_none (requested : String) (l : List String) :
    checkAuthors requested none l = none := by
  rw [checkAuthors_eq_any]
  split <;> rfl

/-- Rejected candidates at the front of the list are skipped. -/
theorem checkAuthors_drop_rejected (requested : String) (doi : Option String)
    (pre l : List String) (hpre : ∀ x ∈ pre, authorAccepted x requested = false) :
    checkAuthors requested doi (pre ++ l) = checkAuthors requested doi l := by
  induction pre with
  | nil => rfl
  | cons p pre' ih =>
    have hp : authorAccepted p requested = false := hpre p (by simp)
    simp only [List.cons_append, checkAuthors, hp, Bool.false_eq_true, if_false]
    exact ih fun x hx => hpre x (by simp [hx])

/-- A returned DOI comes with an accepted candidate author. -/
theorem checkAuthors_some (requested : String) (doi : Option String) (l : List String)
    (d : String) (h : checkAuthors requested doi l = some d) :
    doi = some d ∧ ∃ ca ∈ l, authorAccepted ca requested = true := by
  rw [checkAuthors_eq_any] at h
  split at h
  · next hany =>
    refine ⟨h, ?_⟩
    obtain ⟨ca, hca, hacc⟩ := List.any_eq_true.mp hany
    exact ⟨ca, hca, hacc⟩
  · exact absurd h (by simp)

/-- A successful `search_doi` exhibits an accepted candidate among the
authors the response offered. -/
theorem search_doi_some (title requested : String) (resp : HttpOutcome) (d : String)
    (h : search_doi title requested resp = some d) :
    ∃ ca ∈ respAuthors resp, authorAccepted ca requested = true := by
  cases resp with
  | failure err => exact absurd h (by simp [search_doi])
  | success data =>
    obtain ⟨msg⟩ := data
    cases msg with
    | none => exact absurd h (by simp [search_doi])
    | some m =>
      obtain ⟨its⟩ := m
      cases its with
      | none => exact absurd h (by simp [search_doi])
      | some l =>
        cases l with
        | nil => exact absurd h (by simp [search_doi])
        | cons item rest =>
          have := (checkAuthors_some _ _ _ _ h).2
          simpa [respAuthors, crossrefAuthors, topItem] using this

/-! ## Claim theorems -/

/-- Claim C1: the Resolver accepts a candidate author exactly when
`similar(candidate.lower(), requested.lower())` exceeds the fixed
threshold `0.8 = 4/5`, and a successful query returns the top item's
DOI precisely when some extracted candidate is accepted. -/
theorem search_doi_threshold_decision (title requested : String) :
    (∀ candidate, authorAccepted candidate requested = true ↔
        (4 : ℚ) / 5 < similar (toLowerStr candidate) (toLowerStr requested)) ∧
    (∀ data, search_doi title requested (.success data) =
        if (crossrefAuthors data).any (fun ca => authorAccepted ca requested) then
          topDOI data
        else none) := by
  constructor
  · intro candidate
    rw [← threshold_eq_four_fifths]
    exact Iff.rfl
  · intro data
    obtain ⟨msg⟩ := data
    cases msg with
    | none => rfl
    | some m =>
      obtain ⟨its⟩ := m
      cases its with
      | none => rfl
      | some l =>
        cases l with
        | nil => rfl
        | cons item rest =>
          simp [search_doi, crossrefAuthors, topItem, topDOI, checkAuthors_eq_any]

/-- Claim C2: a transport or HTTP-level failure makes `search_doi`
return `None` (it catches the exception instead of raising), and one
driver step issues at most one registry query (no retry). -/
theorem search_doi_failure_absent :
    (∀ title requested err, search_doi title requested (.failure err) = none) ∧
    (∀ registry entry result, processEntry registry entry = .ok result →
        result.2.2.length ≤ 1) := by
  refine ⟨fun _ _ _ => rfl, ?_⟩
  intro registry entry result h
  rw [processEntry] at h
  split at h
  · cases h; simp
  · split at h
    · cases h; simp
    · split at h
      · cases h; simp
      · split at h
        · simp at h
        · split at h
          · cases h; simp
          · cases h; simp

/-- Claim C2 witness: at a concrete failing registry and entry. -/
theorem search_doi_failure_absent_witness :
    search_doi "Some Title" "Smith" (.failure "boom") = none ∧
    processEntry (fun _ => HttpOutcome.failure "boom")
        ⟨[("title", "Some Title")], [⟨["Smith"]⟩]⟩ =
      .ok (⟨[("title", "Some Title")], [⟨["Smith"]⟩]⟩, false, ["Some Title"]) ∧
    (["Some Title"] : List String).length ≤ 1 :=
  ⟨search_doi_failure_absent.1 "Some Title" "Smith" "boom", rfl,
    search_doi_failure_absent.2 (fun _ => HttpOutcome.failure "boom")
      ⟨[("title", "Some Title")], [⟨["Smith"]⟩]⟩
      (⟨[("title", "Some Title")], [⟨["Smith"]⟩]⟩, false, ["Some Title"]) rfl⟩

/-- Claim C3: a successful lookup depends only on the single top-ranked
item; the first accepted candidate author returns the item's DOI at
once, independently of the authors after it; and if no candidate of the
top item is accepted the result is absent. -/
theorem search_doi_top_item_first_match (title requested : String) :
    (∀ item rest rest',
        search_doi title requested (.success ⟨some ⟨some (item :: rest)⟩⟩) =
          search_doi title requested (.success ⟨some ⟨some (item :: rest')⟩⟩)) ∧
    (∀ doi pre ca post post',
        (∀ x ∈ pre, authorAccepted x requested = false) →
        authorAccepted ca requested = true →
        checkAuthors requested doi (pre ++ ca :: post) = doi ∧
          checkAuthors requested doi (pre ++ ca :: post) =
            checkAuthors requested doi (pre ++ ca :: post')) ∧
    (∀ item rest,
        (∀ x ∈ extractFamilies (item.author.getD []), authorAccepted x requested = false) →
        search_doi title requested (.success ⟨some ⟨some (item :: rest)⟩⟩) = none) := by
  refine ⟨fun _ _ _ => rfl, ?_, ?_⟩
  · intro doi pre ca post post' hpre hca
    rw [checkAuthors_drop_rejected _ _ _ _ hpre, checkAuthors_drop_rejected _ _ _ _ hpre]
    constructor
    · simp [checkAuthors, hca]
    · simp [checkAuthors, hca]
  · intro item rest hno
    show checkAuthors requested item.DOI (extractFamilies (item.author.getD [])) = none
    rw [checkAuthors_eq_any]
    have : (extractFamilies (item.author.getD [])).any
        (fun ca => authorAccepted ca requested) = false :=
      List.any_eq_false.mpr fun x hx => by simp [hno x hx]
    simp [this]

/-- Claim C3 witness: a rejected candidate before the accepted one, at
concrete inputs. -/
theorem search_doi_top_item_first_match_witness :
    (∀ x ∈ ["Xu"], authorAccepted x "Smith" = false) ∧
    authorAccepted "Smith" "Smith" = true ∧
    checkAuthors "Smith" (some "10.1/X") (["Xu"] ++ "Smith" :: ["Doe"]) = some "10.1/X" :=
  ⟨by decide, by decide,
    ((search_doi_top_item_first_match "Some Title" "Smith").2.1 (some "10.1/X")
        ["Xu"] "Smith" ["Doe"] [] (by decide) (by decide)).1⟩

/-- Claim C4: a body without a `"message"` key, without an `"items"`
key, or with an empty `"items"` list is a normal no-result outcome:
`search_doi` returns `None` without error. -/
theorem search_doi_empty_result_absent (title requested : String) (data : RespData)
    (h : data.message = none ∨
      ∃ msg, data.message = some msg ∧ (msg.items = none ∨ msg.items = some [])) :
    search_doi title requested (.success data) = none := by
  rcases h with h | ⟨m, hm, h2⟩
  · simp [search_doi, h]
  · rcases h2 with h2 | h2 <;> simp [search_doi, hm, h2]

/-- Claim C4 witness: the body `{}` with no `"message"` key. -/
theorem search_doi_empty_result_absent_witness :
    (RespData.mk none).message = none ∧
    search_doi "Some Title" "Smith" (.success ⟨none⟩) = none :=
  ⟨rfl, search_doi_empty_result_absent "Some Title" "Smith" ⟨none⟩ (Or.inl rfl)⟩

/-- Claim C10: a top item without an `"author"` list yields `None`; a
top item without a `"DOI"` key yields `None` even when a candidate is
accepted; an author record without a `"family"` key is skipped, leaving
the result unchanged. -/
theorem search_doi_missing_keys_safe (title requested : String) :
    (∀ doi rest,
        search_doi title requested (.success ⟨some ⟨some (⟨doi, none⟩ :: rest)⟩⟩) = none) ∧
    (∀ recs rest,
        search_doi title requested (.success ⟨some ⟨some (⟨none, recs⟩ :: rest)⟩⟩) = none) ∧
    (∀ doi pre post rest,
        search_doi title requested
            (.success ⟨some ⟨some (⟨doi, some (pre ++ ⟨none⟩ :: post)⟩ :: rest)⟩⟩) =
          search_doi title requested
            (.success ⟨some ⟨some (⟨doi, some (pre ++ post)⟩ :: rest)⟩⟩)) := by
  refine ⟨fun _ _ => rfl, ?_, ?_⟩
  · intro recs rest
    exact checkAuthors_none requested _
  · intro doi pre post rest
    show checkAuthors requested doi (extractFamilies (pre ++ ⟨none⟩ :: post)) =
      checkAuthors requested doi (extractFamilies (pre ++ post))
    have : extractFamilies (pre ++ ⟨none⟩ :: post) = extractFamilies (pre ++ post) := by
      simp [extractFamilies]
    rw [this]

/-- Claim C6: an entry that already has a `"doi"` field is passed
through unchanged, queries nothing, and is not counted as updated. -/
theorem process_entry_existing_doi_untouched (registry : String → HttpOutcome)
    (entry : Entry) (h : (entry.fields.lookup "doi").isSome = true) :
    processEntry registry entry = .ok (entry, false, []) := by
  rw [processEntry]
  simp [h]

/-- Claim C6 witness: a concrete entry whose DOI is present. -/
theorem process_entry_existing_doi_untouched_witness :
    ((Entry.mk [("doi", "10.1/X"), ("title", "Some Title")] [⟨["Smith"]⟩]).fields.lookup
        "doi").isSome = true ∧
    processEntry (fun _ => HttpOutcome.failure "unreached")
        ⟨[("doi", "10.1/X"), ("title", "Some Title")], [⟨["Smith"]⟩]⟩ =
      .ok (⟨[("doi", "10.1/X"), ("title", "Some Title")], [⟨["Smith"]⟩]⟩, false, []) :=
  ⟨by decide, process_entry_existing_doi_untouched _ _ (by decide)⟩

/-- Writing the absent `"doi"` key makes it the binding found by a
later lookup. -/
theorem lookup_setField_self (fields : List (String × String)) (k v : String)
    (h : fields.lookup k = none) : (setField fields k v).lookup k = some v := by
  induction fields with
  | nil => simp [setField, List.lookup]
  | cons p rest ih =>
    obtain ⟨a, b⟩ := p
    cases hk : k == a with
    | true => simp [List.lookup, hk] at h
    | false =>
      simp only [List.lookup, hk] at h
      simp only [setField, List.cons_append, List.lookup, hk]
      exact ih h

/-- Case analysis of one driver step: either the entry is returned
untouched, or its absent DOI field is written exactly once, with an
accepted candidate author among those the registry response offered. -/
theorem processEntry_cases (registry : String → HttpOutcome) (entry e' : Entry)
    (upd : Bool) (qs : List String)
    (h : processEntry registry entry = .ok (e', upd, qs)) :
    e' = entry ∨
    (entryDoi entry = none ∧
      ∃ d, e'.fields = setField entry.fields "doi" d ∧
        e'.authors = entry.authors ∧
        entryDoi e' = some d ∧
        ∃ a0 arest, entry.authors = a0 :: arest ∧
        ∃ ln0 lns, a0.last_names = ln0 :: lns ∧
        ∃ ca ∈ respAuthors (registry (entryTitle entry)),
          authorAccepted ca ln0 = true) := by
  by_cases hdoi : (entry.fields.lookup "doi").isSome
  · rw [processEntry, if_pos hdoi] at h
    cases h
    exact Or.inl rfl
  · rw [processEntry, if_neg hdoi] at h
    split at h
    · cases h
      exact Or.inl rfl
    · rename_i a0 arest ha
      split at h
      · cases h
        exact Or.inl rfl
      · split at h
        · exact absurd h (by simp)
        · rename_i ln0 lns hln
          split at h
          · rename_i d hs
            cases h
            exact Or.inr ⟨Option.not_isSome_iff_eq_none.mp hdoi, d, rfl, rfl,
              lookup_setField_self _ _ _ (Option.not_isSome_iff_eq_none.mp hdoi),
              a0, arest, ha, ln0, lns, hln, search_doi_some _ _ _ _ hs⟩
          · cases h
            exact Or.inl rfl

/-- Claim C5: over a whole run, every output entry either equals its
input entry or is that entry with the previously absent DOI field
written exactly once — and a write happens only when the match decision
is positive for some candidate author of the response returned for
that entry's title. -/
theorem process_writes_doi_once (registry : String → HttpOutcome)
    (entries out : List Entry) (count : Nat) (qs : List String)
    (h : processEntries registry entries = .ok (out, count, qs)) :
    out.length = entries.length ∧
    ∀ i (hi : i < entries.length) (ho : i < out.length),
      out.get ⟨i, ho⟩ = entries.get ⟨i, hi⟩ ∨
      (entryDoi (entries.get ⟨i, hi⟩) = none ∧
        ∃ d, (out.get ⟨i, ho⟩).fields =
            setField (entries.get ⟨i, hi⟩).fields "doi" d ∧
          (out.get ⟨i, ho⟩).authors = (entries.get ⟨i, hi⟩).authors ∧
          entryDoi (out.get ⟨i, ho⟩) = some d ∧
          ∃ a0 arest, (entries.get ⟨i, hi⟩).authors = a0 :: arest ∧
          ∃ ln0 lns, a0.last_names = ln0 :: lns ∧
          ∃ ca ∈ respAuthors (registry (entryTitle (entries.get ⟨i, hi⟩))),
            authorAccepted ca ln0 = true) := by
  induction entries generalizing out count qs with
  | nil =>
    rw [processEntries] at h
    cases h
    exact ⟨rfl, fun i hi => absurd hi (by simp)⟩
  | cons e rest ih =>
    rw [processEntries] at h
    cases hpe : processEntry registry e with
    | error msg =>
      rw [hpe] at h
      exact absurd h (by simp)
    | ok tri =>
      obtain ⟨e', upd, qs1⟩ := tri
      rw [hpe] at h
      cases hrest : processEntries registry rest with
      | error msg =>
        rw [hrest] at h
        exact absurd h (by simp)
      | ok tri2 =>
        obtain ⟨rest', c2, qs2⟩ := tri2
        rw [hrest] at h
        cases h
        obtain ⟨hlen, hind⟩ := ih rest' c2 qs2 hrest
        refine ⟨by simp [hlen], ?_⟩
        intro i hi ho
        cases i with
        | zero =>
          simpa using processEntry_cases registry e e' upd qs1 hpe
        | succ n =>
          simpa using hind n (by simpa using hi) (by simpa using ho)

/-- Claim C5 witness: a single entry already carrying a DOI, under a
registry that always fails. -/
theorem process_writes_doi_once_witness :
    processEntries (fun _ => HttpOutcome.failure "err") [⟨[("doi", "10.1/X")], []⟩] =
      .ok ([⟨[("doi", "10.1/X")], []⟩], 0, []) ∧
    ([(⟨[("doi", "10.1/X")], []⟩ : Entry)] : List Entry).length =
      ([(⟨[("doi", "10.1/X")], []⟩ : Entry)] : List Entry).length :=
  ⟨rfl, (process_writes_doi_once (fun _ => HttpOutcome.failure "err")
    [⟨[("doi", "10.1/X")], []⟩] [⟨[("doi", "10.1/X")], []⟩] 0 [] rfl).1⟩

/-- Claim C9 evaluation: an entry whose first author has no surname
components (pybtex yields one for `author = {, John}`) hits the
unguarded `authors[0].last_names[0]` of src/doify.py line 52; the
uncaught IndexError aborts the run before any output is written,
against the spec's policy that every per-entry failure is recovered
and an output file is always written. -/
theorem process_aborts_on_empty_last_names :
    processEntries (fun _ => HttpOutcome.failure "any")
        [⟨[("title", "Some Title")], [⟨[]⟩]⟩] =
      .error "IndexError: list index out of range" := rfl

/-! ## Matcher lemmas -/

/-- A common suffix ending at `(i, j)` has at most `i + 1` characters. -/
theorem csl_le_left (s : List Char) : ∀ i j, csl s i j ≤ i + 1 := by
  intro i
  induction i with
  | zero =>
    intro j
    rw [csl]
    split <;> omega
  | succ i ih =>
    intro j
    cases j with
    | zero =>
      rw [csl]
      split <;> omega
    | succ j =>
      rw [csl]
      split
      · have := ih j
        omega
      · omega

/-- A common suffix ending at `(i, j)` has at most `j + 1` characters. -/
theorem csl_le_right (s : List Char) : ∀ i j, csl s i j ≤ j + 1 := by
  intro i
  induction i with
  | zero =>
    intro j
    rw [csl]
    split <;> omega
  | succ i ih =>
    intro j
    cases j with
    | zero =>
      rw [csl]
      split <;> omega
    | succ j =>
      rw [csl]
      split
      · have := ih j
        omega
      · omega

/-- A string always matches itself at an in-range position. -/
theorem idxEq_self (s : List Char) (i : Nat) (hi : i < s.length) :
    idxEq s s i i = true := by
  have hc : s.get? i = some (s.get ⟨i, hi⟩) := List.get?_eq_get hi
  rw [idxEq, hc]
  simp

/-- On the diagonal the common suffix is everything up to `i`. -/
theorem csl_diag (s : List Char) : ∀ i, i < s.length → csl s i i = i + 1 := by
  intro i
  induction i with
  | zero =>
    intro hi
    rw [csl, if_pos (idxEq_self s 0 hi)]
  | succ i ih =>
    intro hi
    rw [csl, if_pos (idxEq_self s (i + 1) hi), ih (by omega)]

/-- Positions that do not hold the current character contribute no
common suffix. -/
theorem csl_eq_zero (s : List Char) (i j : Nat) (h : idxEq s s i j = false) :
    csl s i j = 0 := by
  cases i with
  | zero => rw [csl, if_neg (by simp [h])]
  | succ i =>
    cases j with
    | zero => rw [csl, if_neg (by simp [h])]
    | succ j => rw [csl, if_neg (by simp [h])]

/-- Membership in `b2j`. -/
theorem mem_b2j (b : List Char) (c : Char) (j : Nat) :
    j ∈ b2j b c ↔ j < b.length ∧ b.get? j = some c := by
  simp [b2j, List.mem_filter, List.mem_range]

/-- The positions in a `b2j` bucket are strictly increasing. -/
theorem b2j_pairwise (b : List Char) (c : Char) : (b2j b c).Pairwise (· < ·) :=
  (List.pairwise_lt_range b.length).sublist (List.filter_sublist _)

/-- An absent character has an empty `b2j` bucket. -/
theorem b2j_eq_nil (b : List Char) (c : Char) (h : c ∉ b) : b2j b c = [] := by
  rw [b2j, List.filter_eq_nil_iff]
  intro j hj
  simp only [decide_eq_true_eq]
  intro hc
  exact h (List.get?_mem hc)

/-- The dictionary update of the inner loop computes the common-suffix
length at `(i, j)` whenever both positions hold the same character. -/
theorem kval_eq_csl (s : List Char) (i j : Nat) (c : Char)
    (hc : s.get? i = some c) (hjc : s.get? j = some c) :
    (if j = 0 then 0 else j2Spec s i (j - 1)) + 1 = csl s i j := by
  have hij : idxEq s s i j = true := by
    rw [idxEq, hc, hjc]
    simp
  cases j with
  | zero =>
    cases i with
    | zero =>
      rw [csl, if_pos hij]
      simp
    | succ i =>
      rw [csl, if_pos hij]
      simp
  | succ j =>
    cases i with
    | zero =>
      rw [csl, if_pos hij]
      rfl
    | succ i =>
      rw [csl, if_pos hij]
      rfl

/-- Once the inner loop holds a best block of size `i + 1`, no later
candidate position can displace it: every `j2len` entry of iteration
`i` is a common-suffix length, bounded by `i + 1`. -/
theorem innerLoop_post (s : List Char) (n i : Nat) (c : Char)
    (hc : s.get? i = some c) (j2len : Nat → Nat)
    (hj : ∀ x, j2len x = j2Spec s i x) :
    ∀ (js : List Nat), (∀ j ∈ js, j < n ∧ s.get? j = some c) →
    ∀ (nj : Nat → Nat) (best : BlockMatch), best.size = i + 1 →
      (innerLoop i 0 n j2len js nj best).2 = best := by
  intro js
  induction js with
  | nil =>
    intro _ nj best _
    rfl
  | cons j rest ih =>
    intro hmem nj best hsize
    obtain ⟨hjn, hjc⟩ := hmem j (by simp)
    simp only [innerLoop, if_neg (Nat.not_lt_zero j), if_neg (Nat.not_le.mpr hjn)]
    have hk : (if j = 0 then 0 else j2len (j - 1)) + 1 = csl s i j := by
      rw [← kval_eq_csl s i j c hc hjc]
      rcases Nat.eq_zero_or_pos j with hj0 | hj0
      · subst hj0
        rfl
      · rw [if_neg (by omega), if_neg (by omega), hj]
    rw [hk]
    have hnolt : ¬ best.size < csl s i j := by
      rw [hsize]
      have := csl_le_left s i j
      omega
    rw [if_neg hnolt]
    exact ih (fun x hx => hmem x (by simp [hx])) _ best hsize

/-- Starting from the running best `(0, 0, i)` of the diagonal
invariant, iteration `i` of the inner loop ends with best
`(0, 0, i + 1)`: positions left of the diagonal are too short to
displace the best, the diagonal position extends it by one, and
positions right of the diagonal cannot beat it. -/
theorem innerLoop_main (s : List Char) (n i : Nat) (c : Char) (hi : i < n)
    (hn : n = s.length) (hc : s.get? i = some c) (j2len : Nat → Nat)
    (hj : ∀ x, j2len x = j2Spec s i x) :
    ∀ (js : List Nat), js.Pairwise (· < ·) →
      (∀ j ∈ js, j < n ∧ s.get? j = some c) → i ∈ js →
    ∀ (nj : Nat → Nat),
      (innerLoop i 0 n j2len js nj ⟨0, 0, i⟩).2 = ⟨0, 0, i + 1⟩ := by
  intro js
  induction js with
  | nil =>
    intro _ _ hmem
    exact absurd hmem (by simp)
  | cons j rest ih =>
    intro hpair hmem himem nj
    obtain ⟨hjn, hjc⟩ := hmem j (by simp)
    simp only [innerLoop, if_neg (Nat.not_lt_zero j), if_neg (Nat.not_le.mpr hjn)]
    by_cases hij : j = i
    · subst hij
      have hk : (if j = 0 then 0 else j2len (j - 1)) + 1 = j + 1 := by
      -- the diagonal entry grows the common suffix to `j + 1`
        rw [← csl_diag s j (by omega), ← kval_eq_csl s j j c hc hjc]
        rcases Nat.eq_zero_or_pos j with hj0 | hj0
        · subst hj0
          rfl
        · rw [if_neg (by omega), if_neg (by omega), hj]
      rw [hk]
      rw [if_pos (Nat.lt_succ_self j : (BlockMatch.mk 0 0 j).size < j + 1)]
      have heq : (⟨j + 1 - (j + 1), j + 1 - (j + 1), j + 1⟩ : BlockMatch) = ⟨0, 0, j + 1⟩ := by
        simp
      rw [heq]
      exact innerLoop_post s n j c hc j2len hj rest
        (fun x hx => hmem x (by simp [hx])) _ _ rfl
    · have hirest : i ∈ rest := by
        rcases List.mem_cons.mp himem with h | h
        · exact absurd h.symm hij
        · exact h
      have hji : j < i := (List.pairwise_cons.mp hpair).1 i hirest
      have hk : (if j = 0 then 0 else j2len (j - 1)) + 1 = csl s i j := by
        rw [← kval_eq_csl s i j c hc hjc]
        rcases Nat.eq_zero_or_pos j with hj0 | hj0
        · subst hj0
          rfl
        · rw [if_neg (by omega), if_neg (by omega), hj]
      rw [hk]
      have hnolt : ¬ (BlockMatch.mk 0 0 i).size < csl s i j := by
        change ¬ i < csl s i j
        have := csl_le_right s i j
        omega
      rw [if_neg hnolt]
      exact ih (List.pairwise_cons.mp hpair).2
        (fun x hx => hmem x (by simp [hx])) hirest _

/-- The dictionary produced by iteration `i` of the inner loop holds
the common-suffix lengths of the positions it visited. -/
theorem innerLoop_j2len (s : List Char) (n i : Nat) (c : Char)
    (hc : s.get? i = some c) (j2len : Nat → Nat)
    (hj : ∀ x, j2len x = j2Spec s i x) :
    ∀ (js : List Nat), (∀ j ∈ js, j < n ∧ s.get? j = some c) →
    ∀ (nj : Nat → Nat) (best : BlockMatch) (x : Nat),
      (innerLoop i 0 n j2len js nj best).1 x =
        if x ∈ js then csl s i x else nj x := by
  intro js
  induction js with
  | nil =>
    intro _ nj best x
    simp [innerLoop]
  | cons j rest ih =>
    intro hmem nj best x
    obtain ⟨hjn, hjc⟩ := hmem j (by simp)
    simp only [innerLoop, if_neg (Nat.not_lt_zero j), if_neg (Nat.not_le.mpr hjn)]
    have hk : (if j = 0 then 0 else j2len (j - 1)) + 1 = csl s i j := by
      rw [← kval_eq_csl s i j c hc hjc]
      rcases Nat.eq_zero_or_pos j with hj0 | hj0
      · subst hj0
        rfl
      · rw [if_neg (by omega), if_neg (by omega), hj]
    rw [ih (fun y hy => hmem y (by simp [hy]))]
    by_cases hxr : x ∈ rest
    · simp [hxr]
    · by_cases hxj : x = j
      · subst hxj
        simp [hxr, hk]
      · simp [hxr, hxj]

/-- The left extension loop stops at once when its guard fails. -/
theorem extLeftAux_stop (a b : List Char) (alo blo fuel : Nat) (m : BlockMatch)
    (h : ¬ (alo < m.besti ∧ blo < m.bestj ∧ idxEq a b (m.besti - 1) (m.bestj - 1))) :
    extLeftAux a b alo blo fuel m = m := by
  cases fuel with
  | zero => rfl
  | succ f => rw [extLeftAux, if_neg h]

/-- The left extension step keeps a block whose guard fails. -/
theorem extLeft_stop (a b : List Char) (alo blo : Nat) (m : BlockMatch)
    (h : ¬ (alo < m.besti ∧ blo < m.bestj ∧ idxEq a b (m.besti - 1) (m.bestj - 1))) :
    extLeft a b alo blo m = m :=
  extLeftAux_stop a b alo blo _ m h

/-- The right extension loop stops at once when its guard fails. -/
theorem extRightAux_stop (a b : List Char) (ahi bhi fuel : Nat) (m : BlockMatch)
    (h : ¬ (m.besti + m.size < ahi ∧ m.bestj + m.size < bhi ∧
      idxEq a b (m.besti + m.size) (m.bestj + m.size))) :
    extRightAux a b ahi bhi fuel m = m := by
  cases fuel with
  | zero => rfl
  | succ f => rw [extRightAux, if_neg h]

/-- The right extension step keeps a block whose guard fails. -/
theorem extRight_stop (a b : List Char) (ahi bhi : Nat) (m : BlockMatch)
    (h : ¬ (m.besti + m.size < ahi ∧ m.bestj + m.size < bhi ∧
      idxEq a b (m.besti + m.size) (m.bestj + m.size))) :
    extRight a b ahi bhi m = m :=
  extRightAux_stop a b ahi bhi _ m h

/-- Diagonal invariant of the outer loop on the pair `(s, s)`: after
the iterations `i, i+1, …, i+cnt-1`, the running best block is the
whole diagonal prefix processed so far. -/
theorem dpLoop_diag (s : List Char) (n : Nat) (hn : n = s.length) :
    ∀ (cnt i : Nat), i + cnt ≤ n →
    ∀ (j2len : Nat → Nat), (∀ x, j2len x = j2Spec s i x) →
      (dpLoop s s 0 n (List.range' i cnt) j2len ⟨0, 0, i⟩).2 = ⟨0, 0, i + cnt⟩ := by
  intro cnt
  induction cnt with
  | zero =>
    intro i _ j2len _
    simp [dpLoop]
  | succ cnt ih =>
    intro i hicnt j2len hj
    rw [List.range'_succ]
    have hi : i < n := by omega
    have hi' : i < s.length := by omega
    have hc : s.get? i = some (s.get ⟨i, hi'⟩) := List.get?_eq_get hi'
    set c := s.get ⟨i, hi'⟩ with hcdef
    have hmem : ∀ j ∈ b2j s c, j < n ∧ s.get? j = some c := by
      intro j hjmem
      rw [mem_b2j] at hjmem
      exact ⟨by omega, hjmem.2⟩
    have hbest := innerLoop_main s n i c hi hn hc j2len hj (b2j s c)
      (b2j_pairwise s c) hmem (by rw [mem_b2j]; exact ⟨hi', hc⟩) (fun _ => 0)
    have hdict := innerLoop_j2len s n i c hc j2len hj (b2j s c) hmem
      (fun _ => 0) ⟨0, 0, i⟩
    simp only [dpLoop, charAt, hc]
    rw [hbest]
    have hj' : ∀ x, (innerLoop i 0 n j2len (b2j s c) (fun _ => 0) ⟨0, 0, i⟩).1 x =
        j2Spec s (i + 1) x := by
      intro x
      rw [hdict x]
      by_cases hx : x ∈ b2j s c
      · simp [hx, j2Spec]
      · rw [if_neg hx]
        have hzero : idxEq s s i x = false := by
          rw [idxEq, hc]
          cases hgx : s.get? x with
          | none => rfl
          | some y =>
            have hxlt : x < s.length := by
              by_contra hh
              rw [List.get?_eq_none.mpr (by omega)] at hgx
              cases hgx
            have hync : y ≠ c := by
              intro hyc
              subst hyc
              exact hx (by rw [mem_b2j]; exact ⟨hxlt, hgx⟩)
            simp [hgx]
            exact fun h => hync h.symm
        show 0 = j2Spec s (i + 1) x
        rw [j2Spec, csl_eq_zero s i x hzero]
    have := ih (i + 1) (by omega) _ hj'
    rw [this]
    simp only [BlockMatch.mk.injEq, true_and]
    omega

/-- The dynamic-programming pass on `(s, s)` finds the whole string. -/
theorem dpPass_self (s : List Char) :
    dpPass s s 0 s.length 0 s.length = ⟨0, 0, s.length⟩ := by
  rw [dpPass]
  have := dpLoop_diag s s.length rfl s.length 0 (by omega) (fun _ => 0) (fun _ => rfl)
  simpa using this

/-- Running `find_longest_match` on `(s, s)` over the full range returns the
whole string. -/
theorem findLongestMatch_self (s : List Char) :
    findLongestMatch s s 0 s.length 0 s.length = ⟨0, 0, s.length⟩ := by
  rw [findLongestMatch, dpPass_self, extLeft_stop _ _ _ _ _ (by simp),
    extRight_stop _ _ _ _ _ (by simp)]

/-- On `(s, s)` the matching blocks cover the whole string. -/
theorem matchesTotal_self (s : List Char) (fuel : Nat) (hn : s.length ≠ 0) :
    matchesTotal s s (fuel + 1) 0 s.length 0 s.length = s.length := by
  rw [matchesTotal]
  simp [findLongestMatch_self, hn]

/-- Claim C7: `similar(s, s)` is exactly `1.0` for every string. -/
theorem similar_self (s : String) : similar s s = 1 := by
  rw [similar]
  simp only [ratioOf]
  rcases Nat.eq_zero_or_pos s.data.length with h0 | h0
  · rw [if_pos (by omega)]
  · rw [if_neg (by omega),
      matchesTotal_self s.data (s.data.length + s.data.length) (by omega),
      Rat.mkRat_eq_divInt,
      show (2 * (s.data.length : Int)) =
        ((s.data.length + s.data.length : Nat) : Int) by push_cast; ring]
    refine Rat.divInt_self' ?_
    have : s.data.length + s.data.length ≠ 0 := by omega
    exact_mod_cast this

/-- A character-disjoint pair leaves the DP best block empty. -/
theorem dpLoop_disjoint (a b : List Char) (hdisj : ∀ c ∈ a, c ∉ b) :
    ∀ (is : List Nat) (j2len : Nat → Nat),
      (dpLoop a b 0 b.length is j2len ⟨0, 0, 0⟩).2 = ⟨0, 0, 0⟩ := by
  intro is
  induction is with
  | nil =>
    intro j2len
    rfl
  | cons i rest ih =>
    intro j2len
    cases hci : charAt a i with
    | none =>
      simp only [dpLoop, hci, innerLoop]
      exact ih _
    | some c =>
      have hnil : b2j b c = [] := by
        refine b2j_eq_nil b c (hdisj c ?_)
        rw [charAt] at hci
        exact List.get?_mem hci
      simp only [dpLoop, hci, hnil, innerLoop]
      exact ih _

/-- Running `find_longest_match` on a character-disjoint pair finds nothing. -/
theorem findLongestMatch_disjoint (a b : List Char) (hdisj : ∀ c ∈ a, c ∉ b) :
    findLongestMatch a b 0 a.length 0 b.length = ⟨0, 0, 0⟩ := by
  have hdp : dpPass a b 0 a.length 0 b.length = ⟨0, 0, 0⟩ := by
    rw [dpPass]
    exact dpLoop_disjoint a b hdisj _ _
  rw [findLongestMatch, hdp, extLeft_stop _ _ _ _ _ (by simp)]
  apply extRight_stop
  rintro ⟨h1, h2, h3⟩
  cases a with
  | nil => simp at h1
  | cons x xs =>
    cases b with
    | nil => simp at h2
    | cons y ys =>
      rw [idxEq] at h3
      simp only [List.get?] at h3
      have hxy : x = y := by simpa using h3
      exact hdisj x (by simp) (by simp [hxy])

/-- A character-disjoint pair has no matching blocks at all. -/
theorem matchesTotal_disjoint (a b : List Char) (hdisj : ∀ c ∈ a, c ∉ b) (fuel : Nat) :
    matchesTotal a b (fuel + 1) 0 a.length 0 b.length = 0 := by
  rw [matchesTotal]
  simp [findLongestMatch_disjoint a b hdisj]

/-- Claim C8 (amended): `similar(a, b)` is exactly `0.0` for
character-disjoint strings that are not both empty. -/
theorem similar_disjoint (a b : String) (hdisj : ∀ c ∈ a.data, c ∉ b.data)
    (hne : a.data.length + b.data.length ≠ 0) : similar a b = 0 := by
  rw [similar]
  simp only [ratioOf]
  rw [if_neg hne,
    matchesTotal_disjoint a.data b.data hdisj (a.data.length + b.data.length)]
  simp [Rat.mkRat_eq_divInt, Rat.zero_divInt]

/-- Claim C8 counterexample: the empty pair is character-disjoint, yet
`similar("", "")` is `1.0`, not `0.0`. -/
theorem similar_empty_pair_counterexample :
    (∀ c ∈ ("" : String).data, c ∉ ("" : String).data) ∧ similar "" "" ≠ 0 := by
  constructor
  · intro c hc
    simp at hc
  · decide

/-- Claim C8 witness: concrete character-disjoint nonempty strings. -/
theorem similar_disjoint_witness :
    (∀ c ∈ ("abc" : String).data, c ∉ ("xyz" : String).data) ∧
    ("abc" : String).data.length + ("xyz" : String).data.length ≠ 0 ∧
    similar "abc" "xyz" = 0 :=
  ⟨by decide, by decide, similar_disjoint "abc" "xyz" (by decide) (by decide)⟩

end Doify
